import Mathlib

/-!
Shallow embedding of the ClipSynth upload/import flow:
the heuristic highlight finder, the upload-page state machine,
the backend request handlers and the mock importer's progress loop,
translated from `packages/frontend/services/videoService.ts`,
`packages/backend/src/index.ts` and the `UploadPage` component.
Strings are modelled as lists of characters so that JavaScript's
`toLowerCase` becomes a character-wise map and `String.includes`
a contiguous-sublist test.
-/

/-- A timed transcript unit: `{ id, text, start, end }` from `types.ts`.
Times are rationals standing for JavaScript numbers; `text` is the list
of characters of the segment's text. -/
structure TranscriptSegment where
  id : String
  text : List Char
  start : ℚ
  «end» : ℚ
  deriving DecidableEq

instance : Inhabited TranscriptSegment :=
  ⟨{ id := "", text := [], start := 0, «end» := 0 }⟩

/-- `listStartsWith hay sub` is true when `sub` is an initial run of `hay`;
the building block for JavaScript's `String.prototype.includes`. -/
def listStartsWith : List Char → List Char → Bool
  | _, [] => true
  | [], _ :: _ => false
  | a :: as, b :: bs => a == b && listStartsWith as bs

/-- `strIncludes hay sub` models JavaScript `hay.includes(sub)`:
`sub` occurs contiguously somewhere in `hay`. -/
def strIncludes (hay sub : List Char) : Bool :=
  match hay with
  | [] => listStartsWith [] sub
  | _ :: rest => listStartsWith hay sub || strIncludes rest sub

/-- The fixed hook vocabulary of `findHighlightsInTranscript`
(`videoService.ts`): `["special", "game-changer", "improvement", "gorgeous"]`. -/
def potentialHooks : List (List Char) :=
  ["special".toList, "game-changer".toList, "improvement".toList, "gorgeous".toList]

/-- One segment's test in the `transcript.forEach` body:
`potentialHooks.some(hook => segment.text.toLowerCase().includes(hook))`.
JavaScript's `toLowerCase` is modelled character-wise by `Char.toLower`. -/
def segmentMatchesHook (seg : TranscriptSegment) : Bool :=
  potentialHooks.any (fun hook => strIncludes (seg.text.map Char.toLower) hook)

/-- Insertion into a JavaScript `Set` viewed as its insertion-ordered
element list: `s.add(x)` keeps the first occurrence. -/
def jsSetAdd (s : List String) (x : String) : List String :=
  if x ∈ s then s else s ++ [x]

/-- `findHighlightsInTranscript` from `videoService.ts`: collect the ids of
segments whose lower-cased text contains a hook keyword into a `Set`
(insertion order, deduplicated); if none matched and the transcript has
more than 2 segments, fall back to the id of the segment at index 1;
return `Array.from` of the set. -/
def findHighlightsInTranscript (transcript : List TranscriptSegment) : List String :=
  let highlights := transcript.foldl
    (fun acc seg => if segmentMatchesHook seg then jsSetAdd acc seg.id else acc) []
  if highlights.isEmpty ∧ 2 < transcript.length then
    jsSetAdd highlights (transcript.getD 1 default).id
  else
    highlights

/-- The `UploadStatus` enum from `types.ts`. -/
inductive UploadStatus
  | IDLE
  | UPLOADING
  | PROCESSING
  | SUCCESS
  | ERROR
  deriving DecidableEq

/-- The source kind of a `VideoDetails` record. -/
inductive VideoSource
  | upload
  | youtube
  deriving DecidableEq

/-- `VideoDetails` from `types.ts` (the full variant, with `source` and
the optional `videoUrl`). -/
structure VideoDetails where
  id : String
  name : String
  duration : ℚ
  thumbnailUrl : String
  transcript : List TranscriptSegment
  source : VideoSource
  videoUrl : Option String
  deriving DecidableEq

/-- `generateTranscriptWithAI` from `packages/backend/src/index.ts`: the
external model call is abstracted as its outcome `aiResult`; on any error
the function falls back to the single placeholder segment
`{id: 'seg_0', text: '(AI generation failed. ...)', start: 0,
end: duration > 5 ? 5 : duration}`. -/
def generateTranscriptWithAI (videoName : String) (duration : ℚ)
    (aiResult : Except String (List TranscriptSegment)) : List TranscriptSegment :=
  match aiResult with
  | .ok transcript => transcript
  | .error _ =>
    [{ id := "seg_0"
       text := ("(AI generation failed. Displaying fallback for: " ++ videoName ++ ")").toList
       start := 0
       «end» := if duration > 5 then 5 else duration }]

/-- The fields of `req.file` that the upload handler reads. -/
structure UploadedFile where
  originalname : String
  filename : String
  deriving DecidableEq

/-- A JSON response of the backend: HTTP status plus either an `error`
field or a `VideoDetails` body. -/
structure ApiResponse where
  status : ℕ
  error : Option String
  video : Option VideoDetails
  deriving DecidableEq

/-- The `POST /api/videos/upload-file` handler from
`packages/backend/src/index.ts`. `now` stands for `Date.now()` and `host`
for `req.protocol + '://' + req.get('host')`; the duration is the mocked
245 seconds. A missing file yields 400; otherwise 200 with the record
whose transcript comes from `generateTranscriptWithAI`. -/
def uploadFileHandler (now : ℕ) (host : String)
    (aiResult : Except String (List TranscriptSegment))
    (file : Option UploadedFile) : ApiResponse :=
  match file with
  | none => { status := 400, error := some "No video file provided.", video := none }
  | some f =>
    { status := 200
      error := none
      video := some
        { id := "vid_" ++ toString now
          name := f.originalname
          duration := 245
          thumbnailUrl := "https://picsum.photos/seed/" ++ toString now ++ "/400/225"
          transcript := generateTranscriptWithAI f.originalname 245 aiResult
          source := .upload
          videoUrl := some (host ++ "/uploads/" ++ f.filename) } }

/-- The fields of `await ytdl.getInfo(url)` that the import handler reads;
`lengthSeconds` is the already-parsed integral duration and `thumbnails`
the list of thumbnail urls. -/
structure YtVideoInfo where
  videoId : String
  title : String
  lengthSeconds : ℚ
  thumbnails : List String
  deriving DecidableEq

/-- The `POST /api/videos/import-youtube` handler from
`packages/backend/src/index.ts`. The external collaborators are passed in:
`validateURL` is `ytdl.validateURL`, `getInfo` the outcome of
`ytdl.getInfo`, `aiResult` the outcome of the transcript model call.
`url` is the request body's `url` field (`none` when absent); JavaScript
falsiness makes the empty string count as missing. The boolean of the
result records whether `ytdl.getInfo` was invoked. -/
def importYoutubeHandler (validateURL : String → Bool)
    (getInfo : String → Except String YtVideoInfo)
    (aiResult : Except String (List TranscriptSegment))
    (url : Option String) : ApiResponse × Bool :=
  match url with
  | none =>
    ({ status := 400, error := some "Invalid or missing YouTube URL.", video := none }, false)
  | some u =>
    if u = "" ∨ validateURL u = false then
      ({ status := 400, error := some "Invalid or missing YouTube URL.", video := none }, false)
    else
      match getInfo u with
      | .error _ =>
        ({ status := 500
           error := some "Failed to process YouTube URL. The video might be private or unavailable."
           video := none }, true)
      | .ok info =>
        ({ status := 200
           error := none
           video := some
             { id := "yt_" ++ info.videoId
               name := info.title
               duration := info.lengthSeconds
               thumbnailUrl := info.thumbnails.getD (info.thumbnails.length - 1) ""
               transcript := generateTranscriptWithAI info.title info.lengthSeconds aiResult
               source := .youtube
               videoUrl := none } }, true)

/-- C7: a missing url, an empty url, or a url failing `ytdl.validateURL`
makes `POST /api/videos/import-youtube` answer 400 with a non-empty error
field, and the metadata fetch `ytdl.getInfo` is never invoked. -/
theorem invalid_youtube_url_rejected_without_fetch
    (validateURL : String → Bool) (getInfo : String → Except String YtVideoInfo)
    (aiResult : Except String (List TranscriptSegment)) (url : Option String)
    (h : url = none ∨ ∃ u, url = some u ∧ (u = "" ∨ validateURL u = false)) :
    (importYoutubeHandler validateURL getInfo aiResult url).1.status = 400 ∧
      (importYoutubeHandler validateURL getInfo aiResult url).1.error =
        some "Invalid or missing YouTube URL." ∧
      "Invalid or missing YouTube URL." ≠ "" ∧
      (importYoutubeHandler validateURL getInfo aiResult url).2 = false := by
  rcases h with rfl | ⟨u, rfl, hu⟩
  · exact ⟨rfl, rfl, by simp, rfl⟩
  · simp only [importYoutubeHandler]
    rw [if_pos hu]
    exact ⟨rfl, rfl, by simp, rfl⟩

/-- C7 witness: the url "not-a-youtube-url" under a validator rejecting
everything is answered 400 without invoking the fetch. -/
theorem invalid_youtube_url_rejected_without_fetch_witness :
    (importYoutubeHandler (fun _ => false) (fun _ => .error "unreachable")
        (.error "unused") (some "not-a-youtube-url")).1.status = 400 ∧
      (importYoutubeHandler (fun _ => false) (fun _ => .error "unreachable")
        (.error "unused") (some "not-a-youtube-url")).1.error =
        some "Invalid or missing YouTube URL." ∧
      "Invalid or missing YouTube URL." ≠ "" ∧
      (importYoutubeHandler (fun _ => false) (fun _ => .error "unreachable")
        (.error "unused") (some "not-a-youtube-url")).2 = false :=
  invalid_youtube_url_rejected_without_fetch (fun _ => false)
    (fun _ => .error "unreachable") (.error "unused") (some "not-a-youtube-url")
    (Or.inr ⟨"not-a-youtube-url", rfl, Or.inr rfl⟩)

/-- C9: when the AI transcript call fails, `generateTranscriptWithAI`
returns exactly one placeholder segment with id "seg_0", start 0 and end
`min duration 5`, and the file-upload import still succeeds: the handler
answers 200 and the returned record carries that single placeholder
transcript. -/
theorem ai_failure_yields_placeholder_and_import_succeeds :
    (∀ (videoName : String) (duration : ℚ) (e : String),
      generateTranscriptWithAI videoName duration (.error e) =
        [{ id := "seg_0"
           text := ("(AI generation failed. Displaying fallback for: " ++ videoName ++ ")").toList
           start := 0
           «end» := min duration 5 }]) ∧
    (∀ (now : ℕ) (host : String) (f : UploadedFile) (e : String),
      (uploadFileHandler now host (.error e) (some f)).status = 200 ∧
        (uploadFileHandler now host (.error e) (some f)).video.map VideoDetails.transcript =
          some [{ id := "seg_0"
                  text := ("(AI generation failed. Displaying fallback for: "
                    ++ f.originalname ++ ")").toList
                  start := 0
                  «end» := min 245 5 }]) := by
  have hmin : ∀ duration : ℚ, (if duration > 5 then (5 : ℚ) else duration) = min duration 5 := by
    intro duration
    rcases le_or_lt duration 5 with h | h
    · rw [if_neg (not_lt.mpr h), min_eq_left h]
    · rw [if_pos h, min_eq_right (le_of_lt h)]
  have hgen : ∀ (videoName : String) (duration : ℚ) (e : String),
      generateTranscriptWithAI videoName duration (.error e) =
        [{ id := "seg_0"
           text := ("(AI generation failed. Displaying fallback for: " ++ videoName ++ ")").toList
           start := 0
           «end» := min duration 5 }] := by
    intro videoName duration e
    simp only [generateTranscriptWithAI]
    rw [hmin]
  refine ⟨hgen, fun now host f e => ⟨rfl, ?_⟩⟩
  simp only [uploadFileHandler, Option.map]
  rw [hgen f.originalname 245 e]

/-- Membership after a `Set.add`: an element of the result was already
present or is the inserted one. -/
lemma mem_jsSetAdd {s : List String} {x y : String} :
    y ∈ jsSetAdd s x ↔ y ∈ s ∨ y = x := by
  unfold jsSetAdd
  split
  · constructor
    · exact fun h => Or.inl h
    · rintro (h | rfl)
      · exact h
      · assumption
  · simp [List.mem_append]

/-- The accumulating fold of `findHighlightsInTranscript` only ever holds
ids that were in the accumulator already or belong to some segment. -/
lemma highlightsFold_subset (t : List TranscriptSegment) (acc : List String)
    (x : String)
    (hx : x ∈ t.foldl
      (fun acc seg => if segmentMatchesHook seg then jsSetAdd acc seg.id else acc) acc) :
    x ∈ acc ∨ x ∈ t.map TranscriptSegment.id := by
  induction t generalizing acc with
  | nil => exact Or.inl (by simpa using hx)
  | cons seg rest ih =>
    simp only [List.foldl_cons] at hx
    rcases ih _ hx with h | h
    · by_cases hm : segmentMatchesHook seg
      · rw [if_pos hm] at h
        rcases mem_jsSetAdd.mp h with h' | rfl
        · exact Or.inl h'
        · exact Or.inr (by simp)
      · rw [if_neg hm] at h
        exact Or.inl h
    · exact Or.inr (by simp [h])

/-- The fold preserves every id already in the accumulator. -/
lemma highlightsFold_mem_of_mem_acc (t : List TranscriptSegment) (acc : List String)
    (x : String) (hx : x ∈ acc) :
    x ∈ t.foldl
      (fun acc seg => if segmentMatchesHook seg then jsSetAdd acc seg.id else acc) acc := by
  induction t generalizing acc with
  | nil => simpa using hx
  | cons seg rest ih =>
    simp only [List.foldl_cons]
    apply ih
    by_cases hm : segmentMatchesHook seg
    · rw [if_pos hm]
      exact mem_jsSetAdd.mpr (Or.inl hx)
    · rwa [if_neg hm]

/-- A matching segment's id lands in the fold's result. -/
lemma highlightsFold_mem_of_match (t : List TranscriptSegment) (acc : List String)
    (seg : TranscriptSegment) (hseg : seg ∈ t) (hm : segmentMatchesHook seg = true) :
    seg.id ∈ t.foldl
      (fun acc seg => if segmentMatchesHook seg then jsSetAdd acc seg.id else acc) acc := by
  induction t generalizing acc with
  | nil => cases hseg
  | cons s rest ih =>
    simp only [List.foldl_cons]
    rcases List.mem_cons.mp hseg with rfl | hmem
    · apply highlightsFold_mem_of_mem_acc
      rw [if_pos hm]
      exact mem_jsSetAdd.mpr (Or.inr rfl)
    · exact ih _ hmem

/-- Over a transcript with no matching segment the fold returns its
accumulator unchanged. -/
lemma highlightsFold_of_no_match (t : List TranscriptSegment) (acc : List String)
    (h : ∀ seg ∈ t, segmentMatchesHook seg = false) :
    t.foldl
      (fun acc seg => if segmentMatchesHook seg then jsSetAdd acc seg.id else acc) acc
      = acc := by
  induction t generalizing acc with
  | nil => simp
  | cons s rest ih =>
    simp only [List.foldl_cons]
    rw [if_neg (by simp [h s (List.mem_cons_self s rest)])]
    exact ih _ (fun seg hs => h seg (List.mem_cons_of_mem s hs))

/-- C1: every id returned by the heuristic highlight finder
`findHighlightsInTranscript` is the id of one of the transcript's
segments — no fabricated ids. -/
theorem findHighlights_no_fabricated_ids (t : List TranscriptSegment) (x : String)
    (hx : x ∈ findHighlightsInTranscript t) :
    x ∈ t.map TranscriptSegment.id := by
  unfold findHighlightsInTranscript at hx
  set f := fun (acc : List String) (seg : TranscriptSegment) =>
    if segmentMatchesHook seg then jsSetAdd acc seg.id else acc with hf
  by_cases hcond : (t.foldl f []).isEmpty ∧ 2 < t.length
  · rw [if_pos hcond] at hx
    rcases mem_jsSetAdd.mp hx with h | rfl
    · rcases highlightsFold_subset t [] x h with h' | h'
      · cases h'
      · exact h'
    · have h1 : 1 < t.length := lt_trans one_lt_two hcond.2
      have : t.getD 1 default = t.get ⟨1, h1⟩ := by
        rw [List.getD_eq_getElem t default h1]
        simp
      rw [this]
      exact List.mem_map_of_mem TranscriptSegment.id (t.get_mem 1 h1)
  · rw [if_neg hcond] at hx
    rcases highlightsFold_subset t [] x hx with h' | h'
    · cases h'
    · exact h'

/-- C1 witness: on a concrete three-segment transcript the returned id
"seg_1" is indeed one of the transcript's ids. -/
theorem findHighlights_no_fabricated_ids_witness :
    "seg_1" ∈ List.map TranscriptSegment.id
      [⟨"seg_0", "hello".toList, 0, 3⟩, ⟨"seg_1", "more words".toList, 3, 6⟩,
       ⟨"seg_2", "bye".toList, 6, 9⟩] :=
  findHighlights_no_fabricated_ids
    [⟨"seg_0", "hello".toList, 0, 3⟩, ⟨"seg_1", "more words".toList, 3, 6⟩,
     ⟨"seg_2", "bye".toList, 6, 9⟩] "seg_1" (by decide)

/-- C2: when no segment's lower-cased text contains a hook keyword, the
finder returns exactly the singleton of the index-1 segment's id if the
transcript has more than 2 segments, and the empty set otherwise. -/
theorem findHighlights_no_match_fallback (t : List TranscriptSegment)
    (h : ∀ seg ∈ t, segmentMatchesHook seg = false) :
    findHighlightsInTranscript t =
      if 2 < t.length then [(t.getD 1 default).id] else [] := by
  unfold findHighlightsInTranscript
  rw [highlightsFold_of_no_match t [] h]
  by_cases hlen : 2 < t.length
  · rw [if_pos ⟨by simp, hlen⟩, if_pos hlen]
    simp [jsSetAdd]
  · rw [if_neg (by simp [hlen]), if_neg hlen]

/-- The `UploadPage` component's state: the five `useState` hooks
`status`, `progress`, `error`, `videoDetails`, `youtubeUrl`. -/
structure UploadPageState where
  status : UploadStatus
  progress : ℚ
  error : Option String
  videoDetails : Option VideoDetails
  youtubeUrl : String
  deriving DecidableEq

/-- `handleReset` from `UploadPage`: `setStatus(IDLE); setProgress(0);
setError(null); setVideoDetails(null); setYoutubeUrl('')`. -/
def handleReset (_s : UploadPageState) : UploadPageState :=
  { status := .IDLE, progress := 0, error := none, videoDetails := none, youtubeUrl := "" }

/-- The progress callback body from `handleFileUpload` / `handleUrlImport`:
`setProgress(p); if (p >= 100) setStatus(PROCESSING)`. -/
def onProgressStep (s : UploadPageState) (p : ℚ) : UploadPageState :=
  { s with
    progress := p
    status := if 100 ≤ p then .PROCESSING else s.status }

/-- Number of `UPLOADING → PROCESSING` transitions observed while feeding
a sequence of progress values through the callback. -/
def countUploadingToProcessing (s : UploadPageState) : List ℚ → ℕ
  | [] => 0
  | p :: ps =>
    (if s.status = .UPLOADING ∧ (onProgressStep s p).status = .PROCESSING then 1 else 0)
      + countUploadingToProcessing (onProgressStep s p) ps

/-- Once the page is in `PROCESSING`, further progress callbacks never
produce another `UPLOADING → PROCESSING` transition. -/
lemma countUploadingToProcessing_of_processing (ps : List ℚ) (s : UploadPageState)
    (h : s.status = .PROCESSING) :
    countUploadingToProcessing s ps = 0 := by
  induction ps generalizing s with
  | nil => rfl
  | cons p rest ih =>
    have hstep : (onProgressStep s p).status = .PROCESSING := by
      simp only [onProgressStep]
      split <;> simp [h]
    simp only [countUploadingToProcessing, h]
    rw [if_neg (by simp), ih _ hstep]

/-- C4: starting from `UPLOADING`, a progress sequence causes the
`UPLOADING → PROCESSING` transition exactly once when some value reaches
100 (the code fires on `p >= 100`), and never otherwise — in particular
never twice for the same import. -/
theorem uploading_to_processing_exactly_once (pr : ℚ) (er : Option String)
    (vd : Option VideoDetails) (yu : String) (ps : List ℚ) :
    countUploadingToProcessing ⟨.UPLOADING, pr, er, vd, yu⟩ ps =
      if ps.any (fun p => 100 ≤ p) then 1 else 0 := by
  induction ps generalizing pr with
  | nil => rfl
  | cons p rest ih =>
    by_cases hp : (100 : ℚ) ≤ p
    · have hstep : (onProgressStep ⟨.UPLOADING, pr, er, vd, yu⟩ p).status = .PROCESSING := by
        simp [onProgressStep, hp]
      have hrest := countUploadingToProcessing_of_processing rest _ hstep
      simp [countUploadingToProcessing, hstep, hrest, hp]
    · have hstep : onProgressStep ⟨.UPLOADING, pr, er, vd, yu⟩ p =
          ⟨.UPLOADING, p, er, vd, yu⟩ := by
        simp [onProgressStep, hp]
      simp [countUploadingToProcessing, hstep, hp, ih p]

/-- C5: `handleReset` returns the page to `IDLE` from every state, with
progress 0, no error and no video details. -/
theorem reset_returns_to_idle (s : UploadPageState) :
    (handleReset s).status = .IDLE ∧ (handleReset s).progress = 0 ∧
      (handleReset s).error = none ∧ (handleReset s).videoDetails = none :=
  ⟨rfl, rfl, rfl, rfl⟩

/-- A rejected import call, as observed by the `catch` branch of
`handleFileUpload` / `handleUrlImport`: either the thrown value is an
`Error` instance carrying its `message` string, or it is any other value. -/
inductive ImportRejection
  | jsError (message : String)
  | nonError
  deriving DecidableEq

/-- `err instanceof Error ? err.message : 'An unknown error occurred.'` -/
def rejectionMessage : ImportRejection → String
  | .jsError m => m
  | .nonError => "An unknown error occurred."

/-- The `catch` branch of `handleFileUpload` / `handleUrlImport`:
`setError(err instanceof Error ? err.message : 'An unknown error
occurred.'); setStatus(ERROR)`. -/
def handleImportFailure (s : UploadPageState) (r : ImportRejection) : UploadPageState :=
  { s with error := some (rejectionMessage r), status := .ERROR }

/-- C6: on a rejected import the page moves to `ERROR` (never `SUCCESS`);
the stored message is the rejection's own message when the rejection is
an `Error` carrying one, and the generic unknown-error string otherwise. -/
theorem rejected_import_surfaces_message :
    (∀ (s : UploadPageState) (m : String),
      (handleImportFailure s (.jsError m)).status = .ERROR ∧
        (handleImportFailure s (.jsError m)).status ≠ .SUCCESS ∧
        (handleImportFailure s (.jsError m)).error = some m) ∧
    (∀ s : UploadPageState,
      (handleImportFailure s .nonError).status = .ERROR ∧
        (handleImportFailure s .nonError).status ≠ .SUCCESS ∧
        (handleImportFailure s .nonError).error = some "An unknown error occurred.") :=
  ⟨fun _ _ => ⟨rfl, by simp [handleImportFailure], rfl⟩,
   fun _ => ⟨rfl, by simp [handleImportFailure], rfl⟩⟩

/-- `listStartsWith` holds exactly when the candidate is an initial run. -/
lemma listStartsWith_iff (hay sub : List Char) :
    listStartsWith hay sub = true ↔ ∃ rest, hay = sub ++ rest := by
  induction sub generalizing hay with
  | nil => simp [listStartsWith]
  | cons b bs ih =>
    cases hay with
    | nil => simp [listStartsWith]
    | cons a as =>
      simp only [listStartsWith, Bool.and_eq_true, beq_iff_eq, ih as]
      constructor
      · rintro ⟨rfl, rest, rfl⟩
        exact ⟨rest, rfl⟩
      · rintro ⟨rest, h⟩
        injection h with h1 h2
        exact ⟨h1, rest, h2⟩

/-- `strIncludes` holds exactly when the candidate occurs contiguously. -/
lemma strIncludes_iff (hay sub : List Char) :
    strIncludes hay sub = true ↔ ∃ pre post, hay = pre ++ (sub ++ post) := by
  induction hay with
  | nil =>
    simp only [strIncludes, listStartsWith_iff]
    constructor
    · rintro ⟨rest, h⟩
      exact ⟨[], rest, by simpa using h⟩
    · rintro ⟨pre, post, h⟩
      exact ⟨post, by
        rcases List.append_eq_nil.mp h.symm with ⟨rfl, h2⟩
        simpa using h2.symm⟩
  | cons a as ih =>
    simp only [strIncludes, Bool.or_eq_true, listStartsWith_iff, ih]
    constructor
    · rintro (⟨rest, h⟩ | ⟨pre, post, h⟩)
      · exact ⟨[], rest, by simpa using h⟩
      · exact ⟨a :: pre, post, by simp [h]⟩
    · rintro ⟨pre, post, h⟩
      cases pre with
      | nil => exact Or.inl ⟨post, by simpa using h⟩
      | cons p ps =>
        injection h with h1 h2
        exact Or.inr ⟨ps, post, h2⟩

/-- Character-wise lower-casing preserves contiguous occurrence. -/
lemma strIncludes_map_toLower (hay sub : List Char)
    (h : strIncludes hay sub = true) :
    strIncludes (hay.map Char.toLower) (sub.map Char.toLower) = true := by
  rcases (strIncludes_iff hay sub).mp h with ⟨pre, post, rfl⟩
  exact (strIncludes_iff _ _).mpr
    ⟨pre.map Char.toLower, post.map Char.toLower, by simp⟩

/-- An id produced by the fold survives the fallback branch of
`findHighlightsInTranscript`. -/
lemma mem_findHighlights_of_mem_fold (t : List TranscriptSegment) (x : String)
    (hx : x ∈ t.foldl
      (fun acc seg => if segmentMatchesHook seg then jsSetAdd acc seg.id else acc) []) :
    x ∈ findHighlightsInTranscript t := by
  unfold findHighlightsInTranscript
  by_cases hcond : (t.foldl
      (fun acc seg => if segmentMatchesHook seg then jsSetAdd acc seg.id else acc)
      []).isEmpty ∧ 2 < t.length
  · rw [if_pos hcond]
    exact mem_jsSetAdd.mpr (Or.inl hx)
  · rwa [if_neg hcond]

/-- C3: a segment whose text contains "game-changer" has its id in the
result of `findHighlightsInTranscript`. -/
theorem findHighlights_includes_game_changer (t : List TranscriptSegment)
    (seg : TranscriptSegment) (hseg : seg ∈ t)
    (htext : strIncludes seg.text "game-changer".toList = true) :
    seg.id ∈ findHighlightsInTranscript t := by
  apply mem_findHighlights_of_mem_fold
  apply highlightsFold_mem_of_match t [] seg hseg
  unfold segmentMatchesHook
  rw [List.any_eq_true]
  refine ⟨"game-changer".toList, by simp [potentialHooks], ?_⟩
  have hmap := strIncludes_map_toLower seg.text "game-changer".toList htext
  have hfix : ("game-changer".toList).map Char.toLower = "game-changer".toList := by
    decide
  rwa [hfix] at hmap

/-- C3 witness: a concrete transcript whose third segment says
"A real Game-Changer indeed"; its id is returned. Here the hypothesis is
the literal occurrence of "game-changer" in the (unaltered-case) text of
a concrete segment. -/
theorem findHighlights_includes_game_changer_witness :
    "s2" ∈ findHighlightsInTranscript
      [⟨"s0", "hello there".toList, 0, 2⟩, ⟨"s1", "plain talk".toList, 2, 4⟩,
       ⟨"s2", "a real game-changer indeed".toList, 4, 6⟩] :=
  findHighlights_includes_game_changer
    [⟨"s0", "hello there".toList, 0, 2⟩, ⟨"s1", "plain talk".toList, 2, 4⟩,
     ⟨"s2", "a real game-changer indeed".toList, 4, 6⟩]
    ⟨"s2", "a real game-changer indeed".toList, 4, 6⟩
    (by decide) (by decide)

/-- C2 witness: a keyword-free three-segment transcript yields exactly
the id at index 1; the hypothesis is checked by evaluation. -/
theorem findHighlights_no_match_fallback_witness :
    findHighlightsInTranscript
      [⟨"a", "one".toList, 0, 1⟩, ⟨"b", "two".toList, 1, 2⟩, ⟨"c", "three".toList, 2, 3⟩]
      = if 2 < ([⟨"a", "one".toList, 0, 1⟩, ⟨"b", "two".toList, 1, 2⟩,
          ⟨"c", "three".toList, 2, 3⟩] : List TranscriptSegment).length
        then [(([⟨"a", "one".toList, 0, 1⟩, ⟨"b", "two".toList, 1, 2⟩,
          ⟨"c", "three".toList, 2, 3⟩] : List TranscriptSegment).getD 1 default).id]
        else [] :=
  findHighlights_no_match_fallback
    [⟨"a", "one".toList, 0, 1⟩, ⟨"b", "two".toList, 1, 2⟩, ⟨"c", "three".toList, 2, 3⟩]
    (by decide)

/-- A JSON response of the highlights endpoint: HTTP status plus either
an `error` field or the `highlightIds` array. -/
structure HighlightsResponse where
  status : ℕ
  error : Option String
  highlightIds : Option (List String)
  deriving DecidableEq

/-- Modelled from the spec: the backend route `POST /api/highlights/find`
is missing from the sources (only its frontend caller in
`videoService.ts` appears). Following the spec's interface
(`{transcript} -> 200 {highlightIds} | 400 {error}` when the transcript
is missing or empty, `| 500 {error}` on analysis failure) and its
requirement that either strategy only emit ids of the given transcript
(post-filter the model's output against known ids). `analyze` stands for
the external analysis call. -/
def findHighlightsHandler
    (analyze : List TranscriptSegment → Except String (List String))
    (transcript : Option (List TranscriptSegment)) : HighlightsResponse :=
  match transcript with
  | none =>
    { status := 400, error := some "Transcript is missing or empty.", highlightIds := none }
  | some [] =>
    { status := 400, error := some "Transcript is missing or empty.", highlightIds := none }
  | some (seg :: rest) =>
    match analyze (seg :: rest) with
    | .error _ =>
      { status := 500, error := some "Failed to analyze transcript.", highlightIds := none }
    | .ok ids =>
      { status := 200
        error := none
        highlightIds :=
          some (ids.filter (fun i => decide (i ∈ (seg :: rest).map TranscriptSegment.id))) }

/-- C8: a missing or empty transcript is answered 400 with an error
field; a non-empty transcript whose analysis succeeds is answered 200
with highlight ids that are all ids of input segments; an analysis
failure is answered 500 with an error field. -/
theorem highlights_endpoint_contract
    (analyze : List TranscriptSegment → Except String (List String)) :
    ((findHighlightsHandler analyze none).status = 400 ∧
      (findHighlightsHandler analyze none).error = some "Transcript is missing or empty.") ∧
    ((findHighlightsHandler analyze (some [])).status = 400 ∧
      (findHighlightsHandler analyze (some [])).error =
        some "Transcript is missing or empty.") ∧
    (∀ (seg : TranscriptSegment) (rest : List TranscriptSegment) (ids : List String),
      analyze (seg :: rest) = .ok ids →
        (findHighlightsHandler analyze (some (seg :: rest))).status = 200 ∧
        ∀ i ∈ ((findHighlightsHandler analyze (some (seg :: rest))).highlightIds.getD []),
          i ∈ (seg :: rest).map TranscriptSegment.id) ∧
    (∀ (seg : TranscriptSegment) (rest : List TranscriptSegment) (e : String),
      analyze (seg :: rest) = .error e →
        (findHighlightsHandler analyze (some (seg :: rest))).status = 500 ∧
        (findHighlightsHandler analyze (some (seg :: rest))).error =
          some "Failed to analyze transcript.") := by
  refine ⟨⟨rfl, rfl⟩, ⟨rfl, rfl⟩, ?_, ?_⟩
  · intro seg rest ids hok
    constructor
    · simp [findHighlightsHandler, hok]
    · intro i hi
      simp only [findHighlightsHandler, hok, Option.getD_some] at hi
      exact of_decide_eq_true (List.mem_filter.mp hi).2
  · intro seg rest e herr
    constructor
    · simp [findHighlightsHandler, herr]
    · simp [findHighlightsHandler, herr]

/-- C8 witness: on a one-segment transcript and an analyzer returning a
fabricated id next to a real one, the endpoint answers 200 and keeps only
the real id; none/empty give 400 and a failing analyzer gives 500, all at
concrete inputs. -/
theorem highlights_endpoint_contract_witness :
    (findHighlightsHandler (fun _ => .ok ["made-up", "s0"]) none).status = 400 ∧
    (findHighlightsHandler (fun _ => .ok ["made-up", "s0"]) (some [])).status = 400 ∧
    (findHighlightsHandler (fun _ => .ok ["made-up", "s0"])
      (some [⟨"s0", "hi".toList, 0, 1⟩])).status = 200 ∧
    (∀ i ∈ ((findHighlightsHandler (fun _ => .ok ["made-up", "s0"])
        (some [⟨"s0", "hi".toList, 0, 1⟩])).highlightIds.getD []),
      i ∈ ([⟨"s0", "hi".toList, 0, 1⟩] : List TranscriptSegment).map TranscriptSegment.id) ∧
    (findHighlightsHandler (fun _ => .error "boom")
      (some [⟨"s0", "hi".toList, 0, 1⟩])).status = 500 :=
  ⟨(highlights_endpoint_contract (fun _ => .ok ["made-up", "s0"])).1.1,
   (highlights_endpoint_contract (fun _ => .ok ["made-up", "s0"])).2.1.1,
   ((highlights_endpoint_contract (fun _ => .ok ["made-up", "s0"])).2.2.1
     ⟨"s0", "hi".toList, 0, 1⟩ [] ["made-up", "s0"] rfl).1,
   ((highlights_endpoint_contract (fun _ => .ok ["made-up", "s0"])).2.2.1
     ⟨"s0", "hi".toList, 0, 1⟩ [] ["made-up", "s0"] rfl).2,
   ((highlights_endpoint_contract (fun _ => .error "boom")).2.2.2
     ⟨"s0", "hi".toList, 0, 1⟩ [] "boom" rfl).1⟩

/-- The progress loop of the mock `uploadVideoFile` in `videoService.ts`:
`while (progress < 100) { progress += Math.floor(Math.random()*15)+5;
onProgress(Math.min(progress, 100)); }`. The random draws are abstracted
as the list `incs` of increments (each in 5..19); the result is the
sequence of values handed to `onProgress`, in order, all delivered before
the importer resolves. -/
def uploadVideoFileProgressEvents : List ℕ → ℕ → List ℕ
  | [], _ => []
  | inc :: rest, progress =>
    if progress < 100 then
      min (progress + inc) 100 :: uploadVideoFileProgressEvents rest (progress + inc)
    else []

/-- Once progress has reached 100 the loop emits nothing further. -/
lemma uploadVideoFileProgressEvents_of_ge (incs : List ℕ) (p : ℕ) (h : 100 ≤ p) :
    uploadVideoFileProgressEvents incs p = [] := by
  cases incs with
  | nil => rfl
  | cons inc rest =>
    simp only [uploadVideoFileProgressEvents]
    rw [if_neg (not_lt.mpr h)]

/-- Every reported value is capped at 100. -/
lemma uploadVideoFileProgressEvents_le (incs : List ℕ) (p : ℕ) (e : ℕ)
    (he : e ∈ uploadVideoFileProgressEvents incs p) : e ≤ 100 := by
  induction incs generalizing p with
  | nil => cases he
  | cons inc rest ih =>
    simp only [uploadVideoFileProgressEvents] at he
    by_cases hp : p < 100
    · rw [if_pos hp] at he
      rcases List.mem_cons.mp he with rfl | hmem
      · exact min_le_right _ _
      · exact ih _ hmem
    · rw [if_neg hp] at he
      cases he

/-- Every reported value is at least the capped starting progress. -/
lemma uploadVideoFileProgressEvents_ge (incs : List ℕ) (p : ℕ) (e : ℕ)
    (he : e ∈ uploadVideoFileProgressEvents incs p) : min p 100 ≤ e := by
  induction incs generalizing p with
  | nil => cases he
  | cons inc rest ih =>
    simp only [uploadVideoFileProgressEvents] at he
    by_cases hp : p < 100
    · rw [if_pos hp] at he
      rcases List.mem_cons.mp he with rfl | hmem
      · exact min_le_min (Nat.le_add_right _ _) le_rfl
      · exact le_trans (min_le_min (Nat.le_add_right _ _) le_rfl) (ih _ hmem)
    · rw [if_neg hp] at he
      cases he

/-- The reported values are non-decreasing. -/
lemma uploadVideoFileProgressEvents_chain (incs : List ℕ) (p : ℕ) :
    List.Chain' (· ≤ ·) (uploadVideoFileProgressEvents incs p) := by
  induction incs generalizing p with
  | nil => exact List.chain'_nil
  | cons inc rest ih =>
    simp only [uploadVideoFileProgressEvents]
    by_cases hp : p < 100
    · rw [if_pos hp]
      refine List.chain'_cons'.mpr ⟨?_, ih _⟩
      intro b hb
      exact uploadVideoFileProgressEvents_ge rest (p + inc) b (List.mem_of_mem_head? hb)
    · rw [if_neg hp]
      exact List.chain'_nil

/-- With enough increments to cross 100, the final reported value is
exactly 100. -/
lemma uploadVideoFileProgressEvents_getLast (incs : List ℕ) (p : ℕ)
    (hp : p < 100) (hsum : 100 ≤ p + incs.sum) :
    (uploadVideoFileProgressEvents incs p).getLast? = some 100 := by
  induction incs generalizing p with
  | nil =>
    exfalso
    simp only [List.sum_nil] at hsum
    omega
  | cons inc rest ih =>
    simp only [uploadVideoFileProgressEvents]
    rw [if_pos hp]
    by_cases h2 : 100 ≤ p + inc
    · rw [min_eq_right h2, uploadVideoFileProgressEvents_of_ge rest (p + inc) h2]
      rfl
    · have hlast := ih (p + inc) (by omega)
        (by simp only [List.sum_cons] at hsum; omega)
      revert hlast
      cases htail : uploadVideoFileProgressEvents rest (p + inc) with
      | nil =>
        intro hlast
        exact absurd hlast (by simp)
      | cons b l =>
        intro hlast
        rw [List.getLast?_cons_cons]
        exact hlast

/-- C10: over every sequence of random increments (each draw in 5..19)
long enough to finish the loop, the values the mock `uploadVideoFile`
passes to `onProgress` all lie in [0, 100], are non-decreasing, and the
last one — delivered before the importer resolves — equals 100. -/
theorem uploadVideoFile_progress_contract (incs : List ℕ)
    (_hrange : ∀ i ∈ incs, 5 ≤ i ∧ i ≤ 19) (hsum : 100 ≤ incs.sum) :
    (∀ e ∈ uploadVideoFileProgressEvents incs 0, e ≤ 100) ∧
      List.Chain' (· ≤ ·) (uploadVideoFileProgressEvents incs 0) ∧
      (uploadVideoFileProgressEvents incs 0).getLast? = some 100 :=
  ⟨fun e he => uploadVideoFileProgressEvents_le incs 0 e he,
   uploadVideoFileProgressEvents_chain incs 0,
   uploadVideoFileProgressEvents_getLast incs 0 (by omega) (by omega)⟩

/-- C10 witness: twenty draws of 5 satisfy the increment range and the
coverage hypothesis, and the reported sequence 5, 10, …, 100 satisfies
the contract. -/
theorem uploadVideoFile_progress_contract_witness :
    (∀ i ∈ List.replicate 20 5, 5 ≤ i ∧ i ≤ 19) ∧
      100 ≤ (List.replicate 20 5).sum ∧
      ((∀ e ∈ uploadVideoFileProgressEvents (List.replicate 20 5) 0, e ≤ 100) ∧
        List.Chain' (· ≤ ·) (uploadVideoFileProgressEvents (List.replicate 20 5) 0) ∧
        (uploadVideoFileProgressEvents (List.replicate 20 5) 0).getLast? = some 100) :=
  ⟨by decide, by decide,
   uploadVideoFile_progress_contract (List.replicate 20 5) (by decide) (by decide)⟩
